import Mathlib

/-!
Verification of the betfair-go market recorder.

A shallow embedding, in Lean 4, of the streaming-pipeline core of the
betfair-go repository: the clock-capture state of the recorder
(`market.go`, `recorder.go`), the per-market demultiplexing and
enrichment pipeline (`recorder.go`), the settlement transaction
(`recorder.go`, the FileManager), the reconnect/retry loop
(`recorder.go`), the gzip auto-detection of the wire codec
(`stream.go`), and the object-store key construction (`storage.go`).

JSON values are modelled by an inductive `Json` type; Go's
`map[string]interface{}` objects are modelled as association lists with
map-like access functions.  Machine-level concerns (TLS, real sockets,
real files) are modelled by explicit state or effect lists.
-/

/-- A JSON value, as produced by Go's `encoding/json` unmarshalling into
`interface{}`: null, booleans, numbers (modelled as rationals, covering
every float64 the payloads use), strings, arrays, and objects
(modelled as association lists standing for Go maps). -/
inductive Json where
  | null : Json
  | bool (b : Bool) : Json
  | num (q : Rat) : Json
  | str (s : String) : Json
  | arr (elems : List Json) : Json
  | obj (fields : List (String × Json)) : Json

/-- Map lookup on an object's field list (Go `m[key]`, first binding wins;
objects built by `setField` keep keys unique). -/
def getField : List (String × Json) → String → Option Json
  | [], _ => none
  | (k, v) :: rest, key => if k = key then some v else getField rest key

/-- Map store on an object's field list (Go `m[key] = val`). -/
def setField : List (String × Json) → String → Json → List (String × Json)
  | [], key, val => [(key, val)]
  | (k, v) :: rest, key, val =>
      if k = key then (k, val) :: rest else (k, v) :: setField rest key val

/-- Map deletion on an object's field list (Go `delete(m, key)`). -/
def eraseField : List (String × Json) → String → List (String × Json)
  | [], _ => []
  | (k, v) :: rest, key =>
      if k = key then eraseField rest key else (k, v) :: eraseField rest key

/-- Field access through a `Json` value: `some v` when the value is an
object carrying the key, `none` otherwise. -/
def Json.getKey : Json → String → Option Json
  | .obj fs, key => getField fs key
  | _, _ => none

theorem getField_setField_self (fs : List (String × Json)) (k : String) (v : Json) :
    getField (setField fs k v) k = some v := by
  induction fs with
  | nil => simp [setField, getField]
  | cons p rest ih =>
      by_cases h : p.1 = k <;> simp [setField, getField, h, ih]

theorem getField_setField_ne (fs : List (String × Json)) (k k' : String) (v : Json)
    (h : k ≠ k') : getField (setField fs k v) k' = getField fs k' := by
  induction fs with
  | nil => simp [setField, getField, h]
  | cons p rest ih =>
      obtain ⟨pk, pv⟩ := p
      by_cases hp : pk = k
      · subst hp
        simp [setField, getField, h]
      · by_cases hp' : pk = k' <;> simp [setField, getField, hp, hp', ih, Ne.symm h]

theorem getField_eraseField_self (fs : List (String × Json)) (k : String) :
    getField (eraseField fs k) k = none := by
  induction fs with
  | nil => simp [eraseField, getField]
  | cons p rest ih =>
      by_cases h : p.1 = k <;> simp [eraseField, getField, h, ih]

/-! Clock capture (market.go `ExtractAndStoreClock`, recorder.go `readMessage`). -/

/-- Decoding of one string-typed struct field by Go's `encoding/json`:
an absent key or JSON `null` leaves the zero value `""`; a present
non-string value is a type error (`none`), which makes the whole
unmarshal fail. -/
def jsonStrField (fs : List (String × Json)) (key : String) : Option String :=
  match getField fs key with
  | none => some ""
  | some (.str s) => some s
  | some .null => some ""
  | some _ => none

/-- market.go 105-114, `ExtractAndStoreClock`: unmarshal the frame into
`struct { InitialClk, Clk string }` and return the two fields; on any
unmarshal error (top-level non-object, or a field of the wrong type)
return `("", "")`. -/
def ExtractAndStoreClock (j : Json) : String × String :=
  match j with
  | .obj fs =>
      match jsonStrField fs "initialClk", jsonStrField fs "clk" with
      | some i, some c => (i, c)
      | _, _ => ("", "")
  | .null => ("", "")
  | _ => ("", "")

/-- recorder.go 187-193: after extracting the clocks from a frame, each
non-empty component overwrites the corresponding field of the recorder. -/
def updateClocks (st : String × String) (frame : Json) : String × String :=
  let ext := ExtractAndStoreClock frame
  let st1 := if ext.1 ≠ "" then (ext.1, st.2) else st
  if ext.2 ≠ "" then (st1.1, ext.2) else st1

/-- The recorder's `(initialClk, clk)` state after processing a prefix of
frames, starting from the zero values of a fresh `MarketRecorder`. -/
def clocksAfter (frames : List Json) : String × String :=
  frames.foldl updateClocks ("", "")

/-- The first non-empty string of a list, or `""` when there is none
(the claim's description of `initialClk`). -/
def firstNonEmpty : List String → String
  | [] => ""
  | s :: rest => if s ≠ "" then s else firstNonEmpty rest

/-- The last non-empty string of a list, or `""` when there is none
(the claim's description of `clk`). -/
def lastNonEmpty : List String → String
  | [] => ""
  | s :: rest => if lastNonEmpty rest = "" then s else lastNonEmpty rest

theorem foldl_updateClocks (frames : List Json) (i0 c0 : String) :
    frames.foldl updateClocks (i0, c0) =
      ((if lastNonEmpty (frames.map fun f => (ExtractAndStoreClock f).1) = ""
        then i0 else lastNonEmpty (frames.map fun f => (ExtractAndStoreClock f).1)),
       (if lastNonEmpty (frames.map fun f => (ExtractAndStoreClock f).2) = ""
        then c0 else lastNonEmpty (frames.map fun f => (ExtractAndStoreClock f).2))) := by
  induction frames generalizing i0 c0 with
  | nil => simp [lastNonEmpty]
  | cons f fs ih =>
      simp only [List.foldl_cons, List.map_cons, lastNonEmpty]
      rw [show fs.foldl updateClocks (updateClocks (i0, c0) f) =
            fs.foldl updateClocks ((updateClocks (i0, c0) f).1, (updateClocks (i0, c0) f).2) from rfl,
          ih]
      by_cases h1 : lastNonEmpty (fs.map fun f => (ExtractAndStoreClock f).1) = "" <;>
        by_cases h2 : lastNonEmpty (fs.map fun f => (ExtractAndStoreClock f).2) = "" <;>
          simp [h1, h2, updateClocks] <;>
            by_cases e1 : (ExtractAndStoreClock f).1 = "" <;>
              by_cases e2 : (ExtractAndStoreClock f).2 = "" <;> simp [e1, e2]

/-- Claim C1, counterexample. The claim states that the recorder's stored
`initialClk` equals the *first* non-empty `initialClk` observed in the
prefix.  This is false: recorder.go 188-190 overwrites `initialClk` on
*every* non-empty observation, so after the two frames
`{"initialClk":"a"}`, `{"initialClk":"b"}` the stored value is `"b"`
while the first non-empty observation was `"a"`. -/
theorem C1_counterexample :
    ¬ (∀ frames : List Json,
        (clocksAfter frames).1 =
          firstNonEmpty (frames.map fun f => (ExtractAndStoreClock f).1)) := by
  intro h
  have hinst := h [Json.obj [("initialClk", Json.str "a")],
                   Json.obj [("initialClk", Json.str "b")]]
  rw [show (clocksAfter [Json.obj [("initialClk", Json.str "a")],
        Json.obj [("initialClk", Json.str "b")]]).1 = "b" from rfl] at hinst
  rw [show firstNonEmpty (([Json.obj [("initialClk", Json.str "a")],
        Json.obj [("initialClk", Json.str "b")]]).map
          fun f => (ExtractAndStoreClock f).1) = "a" from rfl] at hinst
  exact absurd hinst (by decide)

/-- Claim C1, amended. After the recorder processes any prefix of stream
frames, its stored `initialClk` equals the *last* non-empty `initialClk`
observed in that prefix (or is empty if none) — both clock fields follow
the same last-non-empty-wins rule — and its stored `clk` equals the last
non-empty `clk` observed (or is empty if none). -/
theorem C1_clocks_last_nonempty (frames : List Json) :
    clocksAfter frames =
      (lastNonEmpty (frames.map fun f => (ExtractAndStoreClock f).1),
       lastNonEmpty (frames.map fun f => (ExtractAndStoreClock f).2)) := by
  unfold clocksAfter
  rw [foldl_updateClocks]
  by_cases h1 : lastNonEmpty (frames.map fun f => (ExtractAndStoreClock f).1) = "" <;>
    by_cases h2 : lastNonEmpty (frames.map fun f => (ExtractAndStoreClock f).2) = "" <;>
      simp [h1, h2]

/-! Gzip auto-detection (stream.go `ReadMessage`, `isGzip`). -/

/-- Go's ASCII whitespace set, as used by `bytes.TrimSpace` on the
all-ASCII frames of this protocol: `'\t' '\n' '\v' '\f' '\r' ' '`. -/
def isAsciiSpace (b : Nat) : Bool :=
  b = 0x09 || b = 0x0a || b = 0x0b || b = 0x0c || b = 0x0d || b = 0x20

/-- Go `bytes.TrimSpace` on a frame: drop leading and trailing
whitespace bytes. -/
def trimSpace (bs : List Nat) : List Nat :=
  ((bs.dropWhile isAsciiSpace).reverse.dropWhile isAsciiSpace).reverse

/-- stream.go 303-305, `isGzip`:
`len(data) > 2 && data[0] == 0x1f && data[1] == 0x8b`. -/
def isGzip : List Nat → Bool
  | b0 :: b1 :: _ :: _ => b0 == 0x1f && b1 == 0x8b
  | _ => false

/-- The claim's own criterion: the frame *begins with* the two-byte gzip
magic `1f 8b` (no length requirement beyond the two magic bytes). -/
def beginsWithGzipMagic : List Nat → Bool
  | b0 :: b1 :: _ => b0 == 0x1f && b1 == 0x8b
  | _ => false

/-- stream.go 49-68, `StreamConn.ReadMessage`: read newline-delimited
frames, skip blank ones, gzip-decode a frame exactly when `isGzip`
accepts its trimmed bytes, otherwise return the trimmed frame as-is.
The gzip decoder itself is a parameter (`ungz`); `none` models a read
that blocks because no full frame is available. -/
def StreamReadMessage (ungz : List Nat → Except String (List Nat)) :
    List (List Nat) → Option (Except String (List Nat))
  | [] => none
  | line :: rest =>
      let trimmed := trimSpace line
      if trimmed.isEmpty then StreamReadMessage ungz rest
      else if isGzip trimmed then
        match ungz trimmed with
        | .error e => some (.error e)
        | .ok payload => some (.ok (trimSpace payload))
      else some (.ok trimmed)

theorem isGzip_iff_long_magic (t : List Nat) :
    isGzip t = (decide (2 < t.length) && beginsWithGzipMagic t) := by
  match t with
  | [] => rfl
  | [_] => rfl
  | [b0, b1] => simp [isGzip, beginsWithGzipMagic]
  | b0 :: b1 :: b2 :: rest =>
      have hl : 2 < (b0 :: b1 :: b2 :: rest).length := by
        simp [List.length_cons]
      simp [isGzip, beginsWithGzipMagic, hl]

/-- Claim C8, counterexample. The claim states a frame is gzip-decoded if
and only if it begins with the two bytes `1f 8b`.  This is false for the
two-byte frame `[0x1f, 0x8b]`: it begins with the magic, yet
stream.go's `isGzip` additionally requires `len(data) > 2`, so
`ReadMessage` returns the frame as-is instead of the decoder's output
(here a decoder that would return `[0x7b]`). -/
theorem C8_counterexample :
    beginsWithGzipMagic [0x1f, 0x8b] = true ∧
    StreamReadMessage (fun _ => .ok [0x7b]) [[0x1f, 0x8b]] =
      some (.ok [0x1f, 0x8b]) ∧
    ([0x1f, 0x8b] : List Nat) ≠ [0x7b] :=
  ⟨rfl, rfl, by decide⟩

/-- Claim C8, amended. For every frame read from the stream, `ReadMessage`
gzip-decodes the (whitespace-trimmed) frame before JSON handling if and
only if the trimmed frame is longer than two bytes *and* begins with the
two-byte gzip magic `1f 8b`; any other frame (for example one beginning
with `{`, or the bare two-byte magic) is returned as-is. -/
theorem C8_gzip_detect (ungz : List Nat → Except String (List Nat))
    (line : List Nat) (rest : List (List Nat)) (h : trimSpace line ≠ []) :
    StreamReadMessage ungz (line :: rest) =
      some (if 2 < (trimSpace line).length ∧ beginsWithGzipMagic (trimSpace line) = true
            then (ungz (trimSpace line)).map trimSpace
            else .ok (trimSpace line)) := by
  have hne : (trimSpace line).isEmpty = false := by
    cases hts : trimSpace line with
    | nil => exact absurd hts h
    | cons a l => rfl
  by_cases hg : isGzip (trimSpace line) = true
  · have hcond : 2 < (trimSpace line).length ∧ beginsWithGzipMagic (trimSpace line) = true := by
      have := isGzip_iff_long_magic (trimSpace line)
      rw [hg] at this
      constructor
      · exact of_decide_eq_true (Bool.and_elim_left this.symm)
      · exact Bool.and_elim_right this.symm
    rw [StreamReadMessage, if_neg (by simp [hne]), if_pos hg, if_pos hcond]
    cases hu : ungz (trimSpace line) <;> simp [Except.map, hu]
  · have hcond : ¬ (2 < (trimSpace line).length ∧ beginsWithGzipMagic (trimSpace line) = true) := by
      intro ⟨hl, hm⟩
      have := isGzip_iff_long_magic (trimSpace line)
      rw [hm, decide_eq_true hl] at this
      exact hg (by simpa using this)
    rw [StreamReadMessage, if_neg (by simp [hne]), if_neg (by simpa using hg), if_neg hcond]

/-- Witness for `C8_gzip_detect` at the three-byte frame
`1f 8b 00`: the gzip branch is taken and the decoder's output is
returned. -/
theorem C8_gzip_detect_witness :
    StreamReadMessage (fun _ => .ok [0x7b]) [[0x1f, 0x8b, 0x00]] =
      some (.ok [0x7b]) := by
  have h := C8_gzip_detect (fun _ => .ok [0x7b]) [0x1f, 0x8b, 0x00] [] (by decide)
  simpa using h

/-! Path joining (Go stdlib path/filepath, used by storage.go and the
FileManager) and the object-store key (storage.go `BuildS3Key`). -/

/-- Splitting of a character list on a separator, keeping empty pieces
(the component view of a path). -/
def splitOnChar (sep : Char) : List Char → List (List Char)
  | [] => [[]]
  | c :: rest =>
      let r := splitOnChar sep rest
      if c = sep then [] :: r
      else
        match r with
        | h :: t => (c :: h) :: t
        | [] => [[c]]

/-- Joining of components with a separator character. -/
def joinWithChar (sep : Char) : List (List Char) → List Char
  | [] => []
  | [c] => c
  | c :: rest => c ++ sep :: joinWithChar sep rest

/-- Element-level core of Go `path/filepath.Clean`: drop empty and `"."`
components, resolve `".."` against the accumulated output (a `".."`
at the start of a rooted path is dropped; otherwise it is kept). -/
def cleanComponents (rooted : Bool) : List (List Char) → List (List Char) → List (List Char)
  | acc, [] => acc.reverse
  | acc, c :: rest =>
      if c = [] ∨ c = ['.'] then cleanComponents rooted acc rest
      else if c = ['.', '.'] then
        match acc with
        | a :: as =>
            if a = ['.', '.'] then cleanComponents rooted (c :: a :: as) rest
            else cleanComponents rooted as rest
        | [] =>
            if rooted then cleanComponents rooted [] rest
            else cleanComponents rooted [c] rest
      else cleanComponents rooted (c :: acc) rest

/-- Models Go `path/filepath.Clean` (stdlib, not part of src/),
parameterized by the host OS's path separator `sep`. -/
def goClean (sep : Char) (path : String) : String :=
  match path.data with
  | [] => "."
  | c0 :: cs =>
      let rooted : Bool := c0 = sep
      let comps := cleanComponents rooted [] (splitOnChar sep (c0 :: cs))
      let out := joinWithChar sep comps
      if rooted then String.mk (sep :: out)
      else if out = [] then "." else String.mk out

/-- Models Go `path/filepath.Join` (stdlib, not part of src/): skip
leading empty elements, join the rest with the OS separator `sep`, and
`Clean` the result. On Unix hosts `sep` is `'/'`; on Windows it is
`'\\'`. -/
def goFilepathJoin (sep : Char) : List String → String
  | [] => ""
  | e :: rest =>
      if e = "" then goFilepathJoin sep rest
      else goClean sep (String.mk (joinWithChar sep ((e :: rest).map String.data)))

/-- Event information extracted from a settlement payload
(market.go 10-16, `EventInfo`; the `Date` field is kept only through its
three derived string fields, which are all the recorder uses). -/
structure EventInfo where
  eventID : String
  year : String
  month : String
  day : String
deriving DecidableEq

/-- Month abbreviations of Go's `time` package (`Format("Jan")`). -/
def monthAbbrev : Nat → String
  | 1 => "Jan"
  | 2 => "Feb"
  | 3 => "Mar"
  | 4 => "Apr"
  | 5 => "May"
  | 6 => "Jun"
  | 7 => "Jul"
  | 8 => "Aug"
  | 9 => "Sep"
  | 10 => "Oct"
  | 11 => "Nov"
  | 12 => "Dec"
  | _ => ""

/-- Numeric value of a decimal digit character. -/
def digitVal (c : Char) : Nat := c.toNat - 48

/-- Models the date part of Go `time.Time` RFC3339 decoding (stdlib, not
part of src/): a string `YYYY-MM-DDT...` yields `(year, month, day)`
when the digits and separators are well-formed and the month and day are
in range; anything else is a parse error.  Time-of-day and zone are not
used by the recorder. -/
def parseISODate (s : String) : Option (Nat × Nat × Nat) :=
  match s.toList with
  | y1 :: y2 :: y3 :: y4 :: '-' :: m1 :: m2 :: '-' :: d1 :: d2 :: 'T' :: _ =>
      if ([y1, y2, y3, y4, m1, m2, d1, d2].all Char.isDigit) then
        let y := ((digitVal y1 * 10 + digitVal y2) * 10 + digitVal y3) * 10 + digitVal y4
        let m := digitVal m1 * 10 + digitVal m2
        let d := digitVal d1 * 10 + digitVal d2
        if 1 ≤ m ∧ m ≤ 12 ∧ 1 ≤ d ∧ d ≤ 31 then some (y, m, d) else none
      else none
  | _ => none

/-- Decoding of one `mc` element by `ExtractEventInfo`'s anonymous
struct (market.go 76-83): `marketDefinition.eventId` (zero value `""`
when absent) and the `(year, month, day)` of
`marketDefinition.openDate` (the zero `time.Time` is `0001-01-01` when
absent); a present field of the wrong type is an unmarshal error
(`none`). -/
def decodeMDEvent (v : Json) : Option (String × (Nat × Nat × Nat)) :=
  match v with
  | .obj fs =>
      match getField fs "marketDefinition" with
      | none => some ("", (1, 1, 1))
      | some .null => some ("", (1, 1, 1))
      | some (.obj md) =>
          match jsonStrField md "eventId",
                (match getField md "openDate" with
                 | none => some (1, 1, 1)
                 | some .null => some (1, 1, 1)
                 | some (.str s) => parseISODate s
                 | some _ => none) with
          | some e, some d => some (e, d)
          | _, _ => none
      | some _ => none
  | .null => some ("", (1, 1, 1))
  | _ => none

/-- market.go 75-103, `ExtractEventInfo`: unmarshal the payload's `mc`
array, fail when it is empty or `mc[0].marketDefinition.eventId` is
empty, and otherwise return the event id together with
`strconv.Itoa(Year())`, `Format("Jan")` and `strconv.Itoa(Day())` of the
open date. -/
def ExtractEventInfo (payload : Json) : Option EventInfo :=
  match payload with
  | .obj fs =>
      match getField fs "mc" with
      | none => none
      | some .null => none
      | some (.arr mcs) =>
          match mcs.mapM decodeMDEvent with
          | none => none
          | some [] => none
          | some ((eid, (y, m, d)) :: _) =>
              if eid = "" then none
              else some ⟨eid, toString y, monthAbbrev m, toString d⟩
      | some _ => none
  | .null => none
  | _ => none

/-- storage.go 56-62, `S3Storage.BuildS3Key`: default the base path to
`"raw_greyhounds_data"` and join with `path/filepath.Join`, hence with
the host OS's separator `sep`. -/
def BuildS3Key (sep : Char) (basePath : String) (eventInfo : EventInfo)
    (filename : String) : String :=
  let base := if basePath = "" then "raw_greyhounds_data" else basePath
  goFilepathJoin sep
    [base, "PRO", eventInfo.year, eventInfo.month, eventInfo.day,
     eventInfo.eventID, filename]

/-- A settlement payload as the recorder builds it (single-market `mcm`
with a `CLOSED` market definition), used as concrete test input. -/
def settlementPayloadSample : Json :=
  .obj [("op", .str "mcm"), ("clk", .str "1002"),
        ("mc", .arr [.obj [("id", .str "1.23"),
          ("marketDefinition", .obj [("status", .str "CLOSED"),
            ("eventId", .str "33481492"),
            ("openDate", .str "2025-09-26T00:40:00.000Z")])]])]

/-- Claim C7. The key shape and date derivation hold on a Unix host: the
settlement payload above yields event id `33481492` and date parts
`2025`/`Sep`/`26`, and with separator `'/'` the key is
`raw_greyhounds_data/PRO/2025/Sep/26/33481492/1.23.bz2`.  But the code
builds the key with `path/filepath.Join`, whose separator is the host
OS's: on Windows (separator `'\\'`) the very same inputs yield a
backslash-separated key, contradicting the claim's "forward slashes
regardless of host OS" — S3 object keys are meant to be `/`-separated,
so the code's use of `filepath.Join` instead of `path.Join` is a slip. -/
theorem C7_key_separator_bug :
    ExtractEventInfo settlementPayloadSample =
      some ⟨"33481492", "2025", "Sep", "26"⟩ ∧
    BuildS3Key '/' "" ⟨"33481492", "2025", "Sep", "26"⟩ "1.23.bz2" =
      "raw_greyhounds_data/PRO/2025/Sep/26/33481492/1.23.bz2" ∧
    BuildS3Key '\\' "" ⟨"33481492", "2025", "Sep", "26"⟩ "1.23.bz2" ≠
      "raw_greyhounds_data/PRO/2025/Sep/26/33481492/1.23.bz2" := by
  refine ⟨by decide, by decide, by decide⟩

/-! File creation (FileManager `CreateMarketWriter`) and the settlement
transaction (recorder.go `handleMarketSettlement`). -/

/-- A local file system, as the map from paths to file contents. -/
def FileSys := List (String × String)

/-- Lookup of a file's contents. -/
def fsLookup : FileSys → String → Option String
  | [], _ => none
  | (p, c) :: rest, path => if p = path then some c else fsLookup rest path

/-- Store of a file's contents (create or overwrite). -/
def fsSet : FileSys → String → String → FileSys
  | [], path, c => [(path, c)]
  | (p, c0) :: rest, path, c =>
      if p = path then (p, c) :: rest else (p, c0) :: fsSet rest path c

theorem fsLookup_fsSet_self (fs : FileSys) (path c : String) :
    fsLookup (fsSet fs path c) path = some c := by
  induction fs with
  | nil => simp [fsSet, fsLookup]
  | cons p rest ih =>
      by_cases h : p.1 = path <;> simp [fsSet, fsLookup, h, ih]

/-- FileManager.CreateMarketWriter (src/unnamed/part_005, 26-39):
`os.MkdirAll` on the output root (no effect on file contents), then
`os.Create` of `<outputPath>/<marketID>` — which truncates any existing
file to empty — and a buffered writer on it.  Returns the updated file
system and the created file's path. -/
def CreateMarketWriter (outputPath marketID : String) (fs : FileSys) :
    FileSys × String :=
  let filePath := goFilepathJoin '/' [outputPath, marketID]
  (fsSet fs filePath "", filePath)

/-- Claim C10. Whenever a writer is created for market id M — on first
sighting, eagerly from the configured id list, or whenever M has no
entry in the writers map — the file `<root>/M` is opened with
truncation: immediately after `CreateMarketWriter` returns, the file at
the returned path is empty, for every prior file-system state — in
particular a log retained locally after a failed upload is destroyed if
M later reappears in the stream. -/
theorem C10_create_truncates (outputPath marketID : String) (fs : FileSys) :
    fsLookup (CreateMarketWriter outputPath marketID fs).1
             (CreateMarketWriter outputPath marketID fs).2 = some "" := by
  unfold CreateMarketWriter
  exact fsLookup_fsSet_self fs (goFilepathJoin '/' [outputPath, marketID]) ""

/-- One observable effect of the settlement transaction, in execution
order: writer flush, writers-map removal, file-handle close, bzip2
compression, object-store upload, file deletion. -/
inductive SettleEffect where
  | flushWriter (marketID : String)
  | removeWriter (marketID : String)
  | closeFile (marketID : String)
  | compressFile (src dst : String)
  | uploadObject (file key : String)
  | removeFile (path : String)
deriving DecidableEq

/-- Environment outcomes of the settlement transaction's externally
determined steps: whether the market has an entry in the writers map at
entry, whether `CompressToBzip2` succeeds, whether an object store is
configured (`r.storage != nil`, carrying its base path), and whether the
upload succeeds. -/
structure SettleEnv where
  writerExists : Bool
  compressOk : Bool
  basePath : Option String
  uploadOk : Bool

/-- recorder.go 322-358, `handleMarketSettlement`, as the ordered list
of effects it performs together with its Go return value (which is
`nil` — modelled `none` — on every path: every failure is logged and
swallowed).  Step order from the source: flush the writer and delete it
from the writers map (when present); extract event info (failure aborts
the rest); compress `<root>/M` to `<root>/M.bz2` (failure aborts the
rest); when an object store is configured, upload under `BuildS3Key`;
on upload success, `CleanupFiles` removes both local files. -/
def handleMarketSettlement (env : SettleEnv) (outputPath marketID : String)
    (payload : Json) : List SettleEffect × Option String :=
  let wSteps : List SettleEffect :=
    if env.writerExists then
      [.flushWriter marketID, .removeWriter marketID]
    else []
  match ExtractEventInfo payload with
  | none => (wSteps, none)
  | some info =>
      let inputFile := goFilepathJoin '/' [outputPath, marketID]
      let compressedFile := goFilepathJoin '/' [outputPath, marketID ++ ".bz2"]
      let cSteps := wSteps ++ [.compressFile inputFile compressedFile]
      if env.compressOk = false then (cSteps, none)
      else
        match env.basePath with
        | none => (cSteps, none)
        | some bp =>
            let s3Key := BuildS3Key '/' bp info (marketID ++ ".bz2")
            let uSteps := cSteps ++ [.uploadObject compressedFile s3Key]
            if env.uploadOk then
              (uSteps ++ [.removeFile inputFile, .removeFile compressedFile], none)
            else (uSteps, none)

/-- A fully successful settlement environment, as concrete test input. -/
def settleEnvSample : SettleEnv :=
  { writerExists := true, compressOk := true, basePath := some "", uploadOk := true }

/-- Claim C5, counterexample. The claim states that at step 1 the
writer is flushed *and closed — including the underlying file handle*.
This is false: `handleMarketSettlement` receives only the writers map
(of `bufio.Writer`s), flushes and deletes the entry, and never touches
the `files` map of `os.File` handles — those are closed only by `Run`'s
deferred `closeFn` at recorder shutdown.  On a fully successful
settlement of market `1.23`, the transaction's effect trace contains no
file-handle close. -/
theorem C5_counterexample :
    SettleEffect.closeFile "1.23" ∉
      (handleMarketSettlement settleEnvSample "market_files" "1.23"
        settlementPayloadSample).1 ∧
    SettleEffect.flushWriter "1.23" ∈
      (handleMarketSettlement settleEnvSample "market_files" "1.23"
        settlementPayloadSample).1 := by
  refine ⟨by decide, by decide⟩

/-- Claim C5, amended. When the settlement transaction for market M
begins (step 1) and M has a buffered writer, that writer is flushed and
M's entry is removed from the writers map before any compression or
upload I/O of the later steps; the underlying file handle is not closed
by the transaction (it stays open in the recorder's files map until
shutdown). -/
theorem C5_flush_remove_before_io (env : SettleEnv)
    (outputPath marketID : String) (payload : Json)
    (h : env.writerExists = true) :
    ∃ ioTail,
      (handleMarketSettlement env outputPath marketID payload).1 =
        SettleEffect.flushWriter marketID ::
          SettleEffect.removeWriter marketID :: ioTail ∧
      ∀ e ∈ ioTail,
        (∃ s d, e = SettleEffect.compressFile s d) ∨
        (∃ f k, e = SettleEffect.uploadObject f k) ∨
        (∃ p, e = SettleEffect.removeFile p) := by
  cases hEI : ExtractEventInfo payload with
  | none =>
      refine ⟨[], ?_, by intro e he; exact absurd he (List.not_mem_nil e)⟩
      simp [handleMarketSettlement, h, hEI]
  | some info =>
      by_cases hc : env.compressOk = false
      · refine ⟨[SettleEffect.compressFile (goFilepathJoin '/' [outputPath, marketID])
            (goFilepathJoin '/' [outputPath, marketID ++ ".bz2"])], ?_, ?_⟩
        · simp [handleMarketSettlement, h, hEI, hc]
        · intro e he
          rw [List.mem_singleton] at he
          exact Or.inl ⟨_, _, he⟩
      · cases hbp : env.basePath with
        | none =>
            refine ⟨[SettleEffect.compressFile (goFilepathJoin '/' [outputPath, marketID])
                (goFilepathJoin '/' [outputPath, marketID ++ ".bz2"])], ?_, ?_⟩
            · simp [handleMarketSettlement, h, hEI, hc, hbp]
            · intro e he
              rw [List.mem_singleton] at he
              exact Or.inl ⟨_, _, he⟩
        | some bp =>
            by_cases hu : env.uploadOk = true
            · refine ⟨[SettleEffect.compressFile (goFilepathJoin '/' [outputPath, marketID])
                  (goFilepathJoin '/' [outputPath, marketID ++ ".bz2"]),
                SettleEffect.uploadObject (goFilepathJoin '/' [outputPath, marketID ++ ".bz2"])
                  (BuildS3Key '/' bp info (marketID ++ ".bz2")),
                SettleEffect.removeFile (goFilepathJoin '/' [outputPath, marketID]),
                SettleEffect.removeFile (goFilepathJoin '/' [outputPath, marketID ++ ".bz2"])],
                ?_, ?_⟩
              · simp [handleMarketSettlement, h, hEI, hc, hbp, hu]
              · intro e he
                simp only [List.mem_cons, List.not_mem_nil, or_false] at he
                rcases he with rfl | rfl | rfl | rfl
                · exact Or.inl ⟨_, _, rfl⟩
                · exact Or.inr (Or.inl ⟨_, _, rfl⟩)
                · exact Or.inr (Or.inr ⟨_, rfl⟩)
                · exact Or.inr (Or.inr ⟨_, rfl⟩)
            · refine ⟨[SettleEffect.compressFile (goFilepathJoin '/' [outputPath, marketID])
                  (goFilepathJoin '/' [outputPath, marketID ++ ".bz2"]),
                SettleEffect.uploadObject (goFilepathJoin '/' [outputPath, marketID ++ ".bz2"])
                  (BuildS3Key '/' bp info (marketID ++ ".bz2"))], ?_, ?_⟩
              · simp [handleMarketSettlement, h, hEI, hc, hbp, hu]
              · intro e he
                simp only [List.mem_cons, List.not_mem_nil, or_false] at he
                rcases he with rfl | rfl
                · exact Or.inl ⟨_, _, rfl⟩
                · exact Or.inr (Or.inl ⟨_, _, rfl⟩)

/-- Witness for `C5_flush_remove_before_io` at the concrete
fully-successful settlement of market `1.23`. -/
theorem C5_flush_remove_before_io_witness :
    settleEnvSample.writerExists = true ∧
    ∃ ioTail,
      (handleMarketSettlement settleEnvSample "market_files" "1.23"
        settlementPayloadSample).1 =
        SettleEffect.flushWriter "1.23" ::
          SettleEffect.removeWriter "1.23" :: ioTail ∧
      ∀ e ∈ ioTail,
        (∃ s d, e = SettleEffect.compressFile s d) ∨
        (∃ f k, e = SettleEffect.uploadObject f k) ∨
        (∃ p, e = SettleEffect.removeFile p) :=
  ⟨rfl, C5_flush_remove_before_io settleEnvSample "market_files" "1.23"
    settlementPayloadSample rfl⟩

/-- Claim C6. In the settlement transaction, local files are deleted
exactly when every earlier step succeeded and the upload succeeded: a
`removeFile` effect occurs for a path iff event-info extraction
succeeded, compression succeeded, an object store is configured, the
upload succeeded, and the path is `<root>/M` or `<root>/M.bz2` (so on
upload success both files are deleted; on upload failure, or with no
object store, neither is).  The transaction's return value is `none` on
every path: errors are logged, never propagated, and processing
continues. -/
theorem C6_cleanup_iff_upload_success (env : SettleEnv)
    (outputPath marketID : String) (payload : Json) :
    (∀ p, SettleEffect.removeFile p ∈
        (handleMarketSettlement env outputPath marketID payload).1 ↔
      ((ExtractEventInfo payload).isSome ∧ env.compressOk = true ∧
        env.basePath.isSome ∧ env.uploadOk = true ∧
        (p = goFilepathJoin '/' [outputPath, marketID] ∨
         p = goFilepathJoin '/' [outputPath, marketID ++ ".bz2"]))) ∧
    (handleMarketSettlement env outputPath marketID payload).2 = none := by
  constructor
  · intro p
    unfold handleMarketSettlement
    cases hEI : ExtractEventInfo payload with
    | none =>
        by_cases hw : env.writerExists <;> simp [hw]
    | some info =>
        by_cases hw : env.writerExists <;>
          by_cases hc : env.compressOk = false <;>
            cases hbp : env.basePath with
            | none => simp [hw, hc]
            | some bp =>
                by_cases hu : env.uploadOk = true <;>
                  simp [hw, hc, hu, eq_comm]
  · unfold handleMarketSettlement
    cases hEI : ExtractEventInfo payload with
    | none => rfl
    | some info =>
        by_cases hc : env.compressOk = false
        · simp [hc]
        · cases hbp : env.basePath with
          | none => simp [hc]
          | some bp =>
              by_cases hu : env.uploadOk = true <;> simp [hc, hu]

/-! Reconnect/retry loop (recorder.go `runWithReconnect`, 95-136). -/

/-- Outcome of one attempt of the reconnect loop: either
`establishConnection` fails with an error, or a connection is
established and `processStream` later ends with an error (its
`isRetriableError` verdict is the Boolean). -/
inductive ConnOutcome where
  | establishFail (e : String)
  | established (streamErrMsg : String) (retriable : Bool)
deriving DecidableEq

/-- Result of `runWithReconnect`: the stream error returned at
recorder.go 132, the `"max retries exceeded: %w"` error of line 135
wrapping the last error, or `pending` when the supplied outcome list is
exhausted before the loop finished. -/
inductive RunResult where
  | streamErr (e : String)
  | maxRetriesExceeded (last : Option String)
  | pending
deriving DecidableEq

/-- recorder.go 95-136, `runWithReconnect`: for `attempt` from 1 while
`attempt <= maxRetries`, establish a connection; on establishment
failure record the error as `lastErr` and continue (sleeping
`retryDelay` first only when `attempt < maxRetries`); on an established
connection process the stream until it errors, then continue with the
*incremented* attempt counter when the error is retriable and
`attempt < maxRetries` (sleeping first), and otherwise return that
error; when the loop exhausts `maxRetries` attempts, return the
max-retries error wrapping `lastErr`.  The second component collects
the backoff sleeps, in seconds. -/
def runWithReconnect (maxRetries delay : Nat) :
    Nat → Option String → List ConnOutcome → RunResult × List Nat
  | attempt, lastErr, [] =>
      if maxRetries < attempt then (.maxRetriesExceeded lastErr, [])
      else (.pending, [])
  | attempt, lastErr, o :: rest =>
      if maxRetries < attempt then (.maxRetriesExceeded lastErr, [])
      else
        match o with
        | .establishFail e =>
            let r := runWithReconnect maxRetries delay (attempt + 1) (some e) rest
            if attempt < maxRetries then (r.1, delay :: r.2) else r
        | .established e retriable =>
            if retriable = true ∧ attempt < maxRetries then
              let r := runWithReconnect maxRetries delay (attempt + 1) (some e) rest
              (r.1, delay :: r.2)
            else (.streamErr e, [])

/-- Modelled from the spec: the reconnect loop as §4.7 describes it —
"up to 5 consecutive connection-establishment failures; steady-state
stream errors reset the attempt counter on the next established
connection".  Identical to `runWithReconnect` except that once a
connection has been established, a retriable stream error continues
with the attempt counter reset to 1. -/
def runWithReconnectSpec (maxRetries delay : Nat) :
    Nat → Option String → List ConnOutcome → RunResult × List Nat
  | attempt, lastErr, [] =>
      if maxRetries < attempt then (.maxRetriesExceeded lastErr, [])
      else (.pending, [])
  | attempt, lastErr, o :: rest =>
      if maxRetries < attempt then (.maxRetriesExceeded lastErr, [])
      else
        match o with
        | .establishFail e =>
            let r := runWithReconnectSpec maxRetries delay (attempt + 1) (some e) rest
            if attempt < maxRetries then (r.1, delay :: r.2) else r
        | .established e retriable =>
            if retriable = true then
              let r := runWithReconnectSpec maxRetries delay 1 (some e) rest
              (r.1, delay :: r.2)
            else (.streamErr e, [])

theorem runWithReconnect_sleeps (m d : Nat) (outs : List ConnOutcome) :
    ∀ (attempt : Nat) (l : Option String),
      ∀ x ∈ (runWithReconnect m d attempt l outs).2, x = d := by
  induction outs with
  | nil =>
      intro attempt l x hx
      by_cases h : m < attempt <;> simp [runWithReconnect, h] at hx
  | cons o rest ih =>
      intro attempt l x hx
      by_cases h : m < attempt
      · simp [runWithReconnect, h] at hx
      · cases o with
        | establishFail e =>
            by_cases ha : attempt < m
            · simp [runWithReconnect, h, ha] at hx
              rcases hx with rfl | hx
              · rfl
              · exact ih (attempt + 1) (some e) x hx
            · simp [runWithReconnect, h, ha] at hx
              exact ih (attempt + 1) (some e) x hx
        | established e retriable =>
            by_cases hr : retriable = true ∧ attempt < m
            · simp [runWithReconnect, h, hr] at hx
              rcases hx with rfl | hx
              · rfl
              · exact ih (attempt + 1) (some e) x hx
            · simp [runWithReconnect, h, hr] at hx

theorem runWithReconnect_take (m d : Nat) (outs : List ConnOutcome) :
    ∀ (attempt : Nat) (l : Option String),
      runWithReconnect m d attempt l outs =
        runWithReconnect m d attempt l (outs.take (m + 1 - attempt)) := by
  induction outs with
  | nil => intro attempt l; simp
  | cons o rest ih =>
      intro attempt l
      by_cases h : m < attempt
      · have ht : m + 1 - attempt = 0 := by omega
        rw [ht]
        simp [runWithReconnect, h]
      · have ht : m + 1 - attempt = (m - attempt) + 1 := by omega
        rw [ht, List.take_succ_cons]
        have hrec : m + 1 - (attempt + 1) = m - attempt := by omega
        cases o with
        | establishFail e =>
            have hx := ih (attempt + 1) (some e)
            rw [hrec] at hx
            by_cases ha : attempt < m <;> simp [runWithReconnect, h, ha, hx]
        | established e retriable =>
            have hx := ih (attempt + 1) (some e)
            rw [hrec] at hx
            by_cases hr : retriable = true ∧ attempt < m <;>
              simp [runWithReconnect, h, hr, hx]

/-- Claim C4, counterexample. The claim states that a steady-state
stream error resets the attempt counter on the next established
connection.  It does not: in recorder.go 119-131 a retriable stream
error continues the same `for attempt := 1; attempt <= r.maxRetries`
loop with the incremented counter.  On the outcome sequence fail, fail,
fail, (established + retriable stream error), fail — only one
establishment failure after the established connection — the code
exhausts its budget and returns the max-retries error, whereas the
spec's reset semantics would still be retrying (`pending`). -/
theorem C4_counterexample :
    (runWithReconnect 5 30 1 none
        [ConnOutcome.establishFail "e1", ConnOutcome.establishFail "e2",
         ConnOutcome.establishFail "e3", ConnOutcome.established "es" true,
         ConnOutcome.establishFail "e4"]).1 =
      RunResult.maxRetriesExceeded (some "e4") ∧
    (runWithReconnectSpec 5 30 1 none
        [ConnOutcome.establishFail "e1", ConnOutcome.establishFail "e2",
         ConnOutcome.establishFail "e3", ConnOutcome.established "es" true,
         ConnOutcome.establishFail "e4"]).1 =
      RunResult.pending ∧
    RunResult.maxRetriesExceeded (some "e4") ≠ RunResult.pending := by
  refine ⟨by decide, by decide, by decide⟩

/-- Claim C4, amended. Connection establishment is retried at most 5
consecutive times (the run is entirely determined by the first 5
attempt outcomes), with a fixed 30-second backoff between attempts
(every recorded sleep is 30 seconds); a retriable steady-state stream
error consumes an attempt from the same 5-attempt budget instead of
resetting the counter on the next established connection (the counter
resets only when `runWithReconnect` returns to the outer `Run` loop);
after 5 consecutive establishment failures the budget is exhausted and
the last error is propagated to the caller, wrapped in the max-retries
error, rather than retried further. -/
theorem C4_retry_budget (outs : List ConnOutcome) :
    runWithReconnect 5 30 1 none outs =
      runWithReconnect 5 30 1 none (outs.take 5) ∧
    (∀ x ∈ (runWithReconnect 5 30 1 none outs).2, x = 30) ∧
    (∀ e1 e2 e3 e4 e5,
        runWithReconnect 5 30 1 none
          [ConnOutcome.establishFail e1, ConnOutcome.establishFail e2,
           ConnOutcome.establishFail e3, ConnOutcome.establishFail e4,
           ConnOutcome.establishFail e5] =
          (RunResult.maxRetriesExceeded (some e5), [30, 30, 30, 30])) := by
  refine ⟨?_, fun x hx => runWithReconnect_sleeps 5 30 outs 1 none x hx,
    fun e1 e2 e3 e4 e5 => rfl⟩
  have h := runWithReconnect_take 5 30 outs 1 none
  simpa using h

/-- Witness for `C4_retry_budget` at a concrete one-outcome run (a
non-retriable stream error). -/
theorem C4_retry_budget_witness :
    runWithReconnect 5 30 1 none [ConnOutcome.established "boom" false] =
      runWithReconnect 5 30 1 none
        ([ConnOutcome.established "boom" false].take 5) ∧
    (∀ x ∈ (runWithReconnect 5 30 1 none
        [ConnOutcome.established "boom" false]).2, x = 30) ∧
    (∀ e1 e2 e3 e4 e5,
        runWithReconnect 5 30 1 none
          [ConnOutcome.establishFail e1, ConnOutcome.establishFail e2,
           ConnOutcome.establishFail e3, ConnOutcome.establishFail e4,
           ConnOutcome.establishFail e5] =
          (RunResult.maxRetriesExceeded (some e5), [30, 30, 30, 30])) :=
  C4_retry_budget [ConnOutcome.established "boom" false]

/-! Settlement edge detection (recorder.go `readMessage` 231-245 and
296-315, market.go `IsMarketSettled`). -/

/-- market.go 116-118, `IsMarketSettled`: a status is settled iff it is
`"CLOSED"`. -/
def IsMarketSettled (status : String) : Bool := status == "CLOSED"

/-- Lookup in the market-status map (Go map zero value `""` for an
absent id). -/
def statusLookup : List (String × String) → String → String
  | [], _ => ""
  | (k, v) :: rest, key => if k = key then v else statusLookup rest key

/-- Store in the market-status map. -/
def statusSet : List (String × String) → String → String → List (String × String)
  | [], key, v => [(key, v)]
  | (k, v0) :: rest, key, v =>
      if k = key then (k, v) :: rest else (k, v0) :: statusSet rest key v

theorem statusLookup_statusSet_self (st : List (String × String)) (k v : String) :
    statusLookup (statusSet st k v) k = v := by
  induction st with
  | nil => simp [statusSet, statusLookup]
  | cons p rest ih =>
      by_cases h : p.1 = k <;> simp [statusSet, statusLookup, h, ih]

theorem statusLookup_statusSet_ne (st : List (String × String)) (k k' v : String)
    (h : k ≠ k') : statusLookup (statusSet st k v) k' = statusLookup st k' := by
  induction st with
  | nil => simp [statusSet, statusLookup, h]
  | cons p rest ih =>
      obtain ⟨pk, pv⟩ := p
      by_cases hp : pk = k
      · subst hp
        simp [statusSet, statusLookup, h]
      · by_cases hp' : pk = k' <;> simp [statusSet, statusLookup, hp, hp', ih, Ne.symm h]

/-- recorder.go 231-245 and 296-315: one status event per market-change
entry in stream order, as the pair of the market id and the
`marketDefinition.status` string (`""` when the entry carries none).
When the status is non-empty it overwrites the status map, and the
settlement transaction executes exactly when the stored status moves
from non-settled to settled.  The result lists the ids of the executed
settlement transactions in order. -/
def settlementsRun : List (String × String) → List (String × String) → List String
  | _, [] => []
  | statuses, (mid, newStatus) :: rest =>
      if newStatus ≠ "" then
        let oldStatus := statusLookup statuses mid
        let statuses' := statusSet statuses mid newStatus
        (if !IsMarketSettled oldStatus && IsMarketSettled newStatus
         then [mid] else []) ++ settlementsRun statuses' rest
      else settlementsRun statuses rest

/-- The status strings observed for one market id, in stream order. -/
def statusesOf (events : List (String × String)) (mid : String) : List String :=
  (events.filter (fun e => e.1 == mid)).map (fun e => e.2)

/-- Settlement count along one market's own status sequence, starting
from a stored status `old`. -/
def settleCountFrom (old : String) : List String → Nat
  | [] => 0
  | s :: rest =>
      if s ≠ "" then
        (if !IsMarketSettled old && IsMarketSettled s then 1 else 0) +
          settleCountFrom s rest
      else settleCountFrom old rest

theorem settlementsRun_count (events : List (String × String)) :
    ∀ (st : List (String × String)) (mid : String),
      (settlementsRun st events).count mid =
        settleCountFrom (statusLookup st mid) (statusesOf events mid) := by
  induction events with
  | nil => intro st mid; simp [settlementsRun, statusesOf, settleCountFrom]
  | cons ev rest ih =>
      intro st mid
      obtain ⟨m, s⟩ := ev
      by_cases hs : s = ""
      · subst hs
        have h1 : settlementsRun st ((m, "") :: rest) = settlementsRun st rest := by
          simp [settlementsRun]
        by_cases hm : m = mid
        · subst hm
          have h2 : statusesOf ((m, "") :: rest) m = "" :: statusesOf rest m := by
            simp [statusesOf, List.filter_cons]
          rw [h1, h2,
            show settleCountFrom (statusLookup st m) ("" :: statusesOf rest m) =
              settleCountFrom (statusLookup st m) (statusesOf rest m) from by
                simp [settleCountFrom]]
          exact ih st m
        · have h2 : statusesOf ((m, "") :: rest) mid = statusesOf rest mid := by
            simp [statusesOf, List.filter_cons, hm]
          rw [h1, h2]
          exact ih st mid
      · have h1 : settlementsRun st ((m, s) :: rest) =
            (if !IsMarketSettled (statusLookup st m) && IsMarketSettled s
             then [m] else []) ++ settlementsRun (statusSet st m s) rest := by
          simp [settlementsRun, hs]
        by_cases hm : m = mid
        · subst hm
          have hlk := statusLookup_statusSet_self st m s
          have hcount := ih (statusSet st m s) m
          rw [hlk] at hcount
          have h2 : statusesOf ((m, s) :: rest) m = s :: statusesOf rest m := by
            simp [statusesOf, List.filter_cons]
          have h3 : settleCountFrom (statusLookup st m) (s :: statusesOf rest m) =
              (if !IsMarketSettled (statusLookup st m) && IsMarketSettled s
               then 1 else 0) + settleCountFrom s (statusesOf rest m) := by
            simp [settleCountFrom, hs]
          rw [h1, h2, h3, List.count_append, hcount]
          by_cases hj : (!IsMarketSettled (statusLookup st m) && IsMarketSettled s) = true <;>
            simp [hj]
        · have hlk := statusLookup_statusSet_ne st m mid s hm
          have hcount := ih (statusSet st m s) mid
          rw [hlk] at hcount
          have h2 : statusesOf ((m, s) :: rest) mid = statusesOf rest mid := by
            simp [statusesOf, List.filter_cons, hm]
          rw [h1, h2, List.count_append, hcount]
          by_cases hj : (!IsMarketSettled (statusLookup st m) && IsMarketSettled s) = true <;>
            simp [hj, hm, Ne.symm hm]

/-- Scanner deciding that, in one market's status sequence, no non-empty
non-`CLOSED` status ever follows a `CLOSED` one (i.e. the stream never
reopens the market after settling it).  The `closedSeen` flag records
whether `CLOSED` has been observed. -/
def noReopenAux (closedSeen : Bool) : List String → Bool
  | [] => true
  | s :: rest =>
      if s = "" then noReopenAux closedSeen rest
      else if s = "CLOSED" then noReopenAux true rest
      else if closedSeen then false else noReopenAux false rest

/-- A status sequence with no reopening after the first `CLOSED`. -/
def noReopen (statuses : List String) : Bool := noReopenAux false statuses

theorem settleCountFrom_closed (statuses : List String)
    (h : noReopenAux true statuses = true) :
    settleCountFrom "CLOSED" statuses = 0 := by
  induction statuses with
  | nil => rfl
  | cons s rest ih =>
      by_cases hs : s = ""
      · subst hs
        rw [noReopenAux, if_pos rfl] at h
        simpa [settleCountFrom] using ih h
      · by_cases hc : s = "CLOSED"
        · subst hc
          rw [noReopenAux, if_neg (by decide), if_pos rfl] at h
          simp [settleCountFrom, IsMarketSettled, ih h]
        · rw [noReopenAux, if_neg hs, if_neg hc, if_pos rfl] at h
          exact absurd h (by decide)

theorem settleCountFrom_le_one (statuses : List String) :
    ∀ (old : String), old ≠ "CLOSED" → noReopen statuses = true →
      settleCountFrom old statuses ≤ 1 := by
  induction statuses with
  | nil => intro old _ _; exact Nat.zero_le 1
  | cons s rest ih =>
      intro old hold h
      by_cases hs : s = ""
      · subst hs
        rw [noReopen, noReopenAux, if_pos rfl] at h
        simpa [settleCountFrom] using ih old hold h
      · by_cases hc : s = "CLOSED"
        · subst hc
          rw [noReopen, noReopenAux, if_neg (by decide), if_pos rfl] at h
          have h0 := settleCountFrom_closed rest h
          simp [settleCountFrom, IsMarketSettled, h0,
            show (old == "CLOSED") = false from by simpa using hold]
        · rw [noReopen, noReopenAux, if_neg hs, if_neg hc, if_neg (by decide)] at h
          have := ih s hc h
          simpa [settleCountFrom, hs, IsMarketSettled,
            show (s == "CLOSED") = false from by simpa using hc] using this

/-- Claim C2, counterexample. The claim states that for any sequence of
frames the settlement transaction executes at most once per market id.
This is false: the status-edge test fires on every non-settled to
`CLOSED` transition of the *stored* status, so the status sequence
`CLOSED`, `OPEN`, `CLOSED` for one id executes the transaction twice
(the `OPEN` frame overwrites the stored `CLOSED`, re-arming the edge). -/
theorem C2_counterexample :
    ¬ (∀ (events : List (String × String)) (mid : String),
        (settlementsRun [] events).count mid ≤ 1) := by
  intro h
  have hinst := h [("1.1", "CLOSED"), ("1.1", "OPEN"), ("1.1", "CLOSED")] "1.1"
  exact absurd hinst (by decide)

/-- Claim C2, amended. For any market id and any sequence of stream
frames whose status observations for that id never revert from `CLOSED`
to a non-empty non-`CLOSED` value (in particular for any real stream,
where `CLOSED` is terminal), the settlement transaction executes at
most once for that id.  Without that restriction the transaction
executes once per non-settled-to-`CLOSED` edge of the stored status. -/
theorem C2_settlement_at_most_once (events : List (String × String))
    (mid : String) (h : noReopen (statusesOf events mid) = true) :
    (settlementsRun [] events).count mid ≤ 1 := by
  rw [settlementsRun_count events [] mid]
  exact settleCountFrom_le_one (statusesOf events mid) (statusLookup [] mid)
    (by rw [show statusLookup [] mid = "" from rfl]; decide) h

/-- Witness for `C2_settlement_at_most_once` on a concrete
`OPEN → UPDATE → CLOSED` run of a single market. -/
theorem C2_settlement_at_most_once_witness :
    noReopen (statusesOf
      [("1.1", "OPEN"), ("1.1", ""), ("1.1", "CLOSED")] "1.1") = true ∧
    (settlementsRun [] [("1.1", "OPEN"), ("1.1", ""), ("1.1", "CLOSED")]).count
      "1.1" ≤ 1 :=
  ⟨by decide, C2_settlement_at_most_once
    [("1.1", "OPEN"), ("1.1", ""), ("1.1", "CLOSED")] "1.1" (by decide)⟩

/-! Per-market demultiplexing and catalogue enrichment
(recorder.go `readMessage` 195-294, `enrichMarketData` 460-557,
market.go `ExtractOp`, `ExtractChangeType`, `RemoveIDField`). -/

/-- market.go 24-32, `ExtractOp`: unmarshal into
`struct { Op string }`; on any unmarshal error return `""`. -/
def ExtractOp (j : Json) : String :=
  match j with
  | .obj fs =>
      match jsonStrField fs "op" with
      | some s => s
      | none => ""
  | _ => ""

/-- market.go 46-54, `ExtractChangeType`: unmarshal into
`struct { CT string }` from the `ct` key; on any unmarshal error
return `""`. -/
def ExtractChangeType (j : Json) : String :=
  match j with
  | .obj fs =>
      match jsonStrField fs "ct" with
      | some s => s
      | none => ""
  | _ => ""

/-- market.go 120-128, `RemoveIDField`: unmarshal into a generic map,
delete the top-level `id` key, and marshal back; a non-object payload is
an unmarshal error (`none`). -/
def RemoveIDField (j : Json) : Option Json :=
  match j with
  | .obj fs => some (.obj (eraseField fs "id"))
  | .null => some .null
  | _ => none

/-- One runner of a market catalogue (REST `RunnerCatalog`): selection
id, runner name, handicap, sort priority. -/
structure RunnerCatalog where
  selectionID : Int
  runnerName : String
  handicap : Rat
  sortPriority : Int

/-- The event of a market catalogue (name and venue are the fields the
enrichment reads). -/
structure EventCat where
  name : String
  venue : String

/-- The event type of a market catalogue. -/
structure EventTypeCat where
  name : String

/-- The competition of a market catalogue. -/
structure CompetitionCat where
  name : String

/-- A cached market catalogue (REST `MarketCatalogue`): market name,
optional event, event type and competition (nil pointers in Go), and
the runner list. -/
structure MarketCatalogue where
  marketName : String
  event : Option EventCat
  eventType : Option EventTypeCat
  competition : Option CompetitionCat
  runners : List RunnerCatalog

/-- recorder.go 509-512: the runner map built by iterating the
catalogue's runners, later entries overwriting earlier ones — so a
lookup returns the last runner with the given selection id. -/
def runnerMapLookup (runners : List RunnerCatalog) (id : Int) :
    Option RunnerCatalog :=
  (runners.filter (fun r => r.selectionID == id)).getLast?

/-- Go's `int64(f)` conversion of a float64: truncation toward zero. -/
def ratTruncToInt (q : Rat) : Int :=
  if q < 0 then -((-q).floor) else q.floor

/-- recorder.go 515-546: enrichment of one runner object.  A runner
that is not an object, has no numeric `id`, or whose id is not in the
runner map is passed through unchanged; otherwise `adjustmentFactor`
defaults to `0.0` when absent, `name` and `sortPriority` are set, and
`handicap` is set only when the catalogue handicap is non-zero. -/
def enrichRunner (runners : List RunnerCatalog) (rj : Json) : Json :=
  match rj with
  | .obj rf =>
      match getField rf "id" with
      | some (.num q) =>
          match runnerMapLookup runners (ratTruncToInt q) with
          | some rc =>
              let rf1 :=
                match getField rf "adjustmentFactor" with
                | some _ => rf
                | none => setField rf "adjustmentFactor" (.num 0)
              let rf2 := setField rf1 "name" (.str rc.runnerName)
              let rf3 :=
                if rc.handicap ≠ 0 then
                  setField rf2 "handicap" (.num rc.handicap)
                else rf2
              .obj (setField rf3 "sortPriority" (.num (rc.sortPriority : Rat)))
          | none => .obj rf
      | _ => .obj rf
  | _ => rj

/-- recorder.go 490-503, the name-adding prefix of `enrichMarketData`:
add `marketName`; when the catalogue has an event, add `eventName` and
(only when the venue is non-empty) `venue`; when it has an event type,
add `eventTypeName`; when it has a competition, add `competitionName`. -/
def enrichMarketDefNames (cat : MarketCatalogue)
    (md : List (String × Json)) : List (String × Json) :=
  let md1 := setField md "marketName" (.str cat.marketName)
  let md2 :=
    match cat.event with
    | some ev =>
        let t := setField md1 "eventName" (.str ev.name)
        if ev.venue ≠ "" then setField t "venue" (.str ev.venue)
        else t
    | none => md1
  let md3 :=
    match cat.eventType with
    | some et => setField md2 "eventTypeName" (.str et.name)
    | none => md2
  match cat.competition with
  | some c => setField md3 "competitionName" (.str c.name)
  | none => md3

/-- recorder.go 490-548, the whole market-definition mutation of
`enrichMarketData`: the name fields above, and then — when the
definition has a non-empty `runners` array — enrichment of every
runner. -/
def enrichMarketDef (cat : MarketCatalogue)
    (md : List (String × Json)) : List (String × Json) :=
  match getField (enrichMarketDefNames cat md) "runners" with
  | some (.arr rs) =>
      if rs.isEmpty then enrichMarketDefNames cat md
      else setField (enrichMarketDefNames cat md) "runners"
        (.arr (rs.map (enrichRunner cat.runners)))
  | _ => enrichMarketDefNames cat md

/-- recorder.go 468-556, the body of `enrichMarketData` once a
catalogue is cached: navigate to `mc[0].marketDefinition`, apply
`enrichMarketDef` to it, and marshal the mutated payload back.  A
payload without the expected shape is returned unchanged. -/
def enrichWithCatalogue (cat : MarketCatalogue) (payload : Json) : Json :=
  match payload with
  | .obj data =>
      match getField data "mc" with
      | some (.arr (m0 :: mcRest)) =>
          match m0 with
          | .obj market =>
              match getField market "marketDefinition" with
              | some (.obj md) =>
                  let market1 := setField market "marketDefinition"
                    (.obj (enrichMarketDef cat md))
                  .obj (setField data "mc" (.arr (.obj market1 :: mcRest)))
              | _ => payload
          | _ => payload
      | _ => payload
  | _ => payload

/-- recorder.go 460-466: `enrichMarketData` returns the payload
unchanged when no catalogue is cached for the market id, and otherwise
enriches it with the cached catalogue. -/
def enrichMarketData (catalogues : String → Option MarketCatalogue)
    (marketID : String) (payload : Json) : Json :=
  match catalogues marketID with
  | none => payload
  | some cat => enrichWithCatalogue cat payload

/-- recorder.go 277-284: the payload actually written is the enrichment
result on success, and the non-enriched filtered payload when the
enrichment step fails — the line is not dropped. -/
def emittedPayload (enrichResult : Except String Json) (filtered : Json) : Json :=
  match enrichResult with
  | .ok e => e
  | .error _ => filtered

/-- recorder.go 214-294, the per-market-change slice of `readMessage`:
an entry that is not an object or has no non-empty string `id` is
skipped; otherwise the single-market message
`{op, pt, clk, mc: [entry]}` is built from the frame's top-level fields
(absent ones becoming JSON null), the top-level `id` field is stripped
by `RemoveIDField`, and the result is enriched.  Returns the market id
together with the line written to its file. -/
def processMarketChange (catalogues : String → Option MarketCatalogue)
    (data : List (String × Json)) (mcEntry : Json) : Option (String × Json) :=
  match mcEntry with
  | .obj marketChange =>
      match getField marketChange "id" with
      | some (.str marketID) =>
          if marketID = "" then none
          else
            match RemoveIDField (Json.obj
              [("op", (getField data "op").getD .null),
               ("pt", (getField data "pt").getD .null),
               ("clk", (getField data "clk").getD .null),
               ("mc", .arr [.obj marketChange])]) with
            | none => none
            | some filtered =>
                some (marketID, enrichMarketData catalogues marketID filtered)
      | _ => none
  | _ => none

/-- recorder.go 195-294, `readMessage` on one `mcm` frame: skip
non-`mcm` ops and `HEARTBEAT` change types, then emit one
`(marketID, line)` pair per processable market-change entry for which a
writer is available (`canWrite` models writer existence after the
create-on-first-sighting attempt). -/
def frameWrittenLines (canWrite : String → Bool)
    (catalogues : String → Option MarketCatalogue) (frame : Json) :
    List (String × Json) :=
  if ExtractOp frame = "mcm" then
    if ExtractChangeType frame = "HEARTBEAT" then []
    else
      match frame with
      | .obj data =>
          match getField data "mc" with
          | some (.arr mcs) =>
              mcs.filterMap (fun mcEntry =>
                match processMarketChange catalogues data mcEntry with
                | some (mid, line) =>
                    if canWrite mid then some (mid, line) else none
                | none => none)
          | _ => []
      | _ => []
  else []

/-- The claim's per-line invariant: the line is a JSON object whose
`mc` array has exactly one element, that element's `id` equals the
market id of the file the line goes to, and the object has no top-level
`id` field. -/
def lineIsolated (mid : String) (line : Json) : Bool :=
  match line with
  | .obj fs =>
      (match getField fs "mc" with
       | some (.arr [Json.obj mcf]) =>
           (match getField mcf "id" with
            | some (.str s) => s == mid
            | _ => false)
       | _ => false) &&
      (getField fs "id").isNone
  | _ => false

theorem lineIsolated_enrichWithCatalogue (cat : MarketCatalogue)
    (x1 x2 x3 : Json) (marketChange : List (String × Json)) (mid : String)
    (hid : getField marketChange "id" = some (.str mid)) :
    lineIsolated mid (enrichWithCatalogue cat
      (.obj [("op", x1), ("pt", x2), ("clk", x3),
             ("mc", .arr [.obj marketChange])])) = true := by
  have hne := fun fs v =>
    getField_setField_ne fs "marketDefinition" "id" v (by decide)
  cases hmd : getField marketChange "marketDefinition" with
  | none => simp [enrichWithCatalogue, lineIsolated, getField, hmd, hid]
  | some v =>
      cases v with
      | obj md =>
          simp [enrichWithCatalogue, lineIsolated, getField, setField, hmd,
            hne, hid]
      | null => simp [enrichWithCatalogue, lineIsolated, getField, hmd, hid]
      | bool b => simp [enrichWithCatalogue, lineIsolated, getField, hmd, hid]
      | num q => simp [enrichWithCatalogue, lineIsolated, getField, hmd, hid]
      | str s => simp [enrichWithCatalogue, lineIsolated, getField, hmd, hid]
      | arr xs => simp [enrichWithCatalogue, lineIsolated, getField, hmd, hid]

theorem lineIsolated_processed (catalogues : String → Option MarketCatalogue)
    (data : List (String × Json)) (mcEntry : Json) (mid : String) (line : Json)
    (h : processMarketChange catalogues data mcEntry = some (mid, line)) :
    lineIsolated mid line = true := by
  unfold processMarketChange at h
  split at h
  case _ marketChange =>
    split at h
    case _ marketID hid =>
      split at h
      · exact absurd h (by simp)
      · split at h
        case _ hrem => exact absurd h (by simp)
        case _ filtered hrem =>
          simp only [RemoveIDField, eraseField, reduceIte,
            Option.some.injEq] at hrem
          subst hrem
          rw [Option.some.injEq, Prod.mk.injEq] at h
          obtain ⟨rfl, rfl⟩ := h
          unfold enrichMarketData
          cases hcat : catalogues marketID with
          | none => simp [lineIsolated, getField, hid]
          | some cat =>
              exact lineIsolated_enrichWithCatalogue cat _ _ _
                marketChange marketID hid
    case _ => exact absurd h (by simp)
  case _ => exact absurd h (by simp)

/-- Claim C3. Every line the recorder appends to a market file
`<root>/<M>` is a complete JSON object whose `mc` array has exactly one
element, that element's `id` equals `M`, and the object has no
top-level `id` field (the server's request-correlation id is stripped)
— for every frame, writer assignment and catalogue cache. -/
theorem C3_line_isolation (canWrite : String → Bool)
    (catalogues : String → Option MarketCatalogue) (frame : Json) :
    ((frameWrittenLines canWrite catalogues frame).all
      (fun p => lineIsolated p.1 p.2)) = true := by
  rw [List.all_eq_true]
  intro p hp
  unfold frameWrittenLines at hp
  by_cases hop : ExtractOp frame = "mcm"
  · rw [if_pos hop] at hp
    by_cases hct : ExtractChangeType frame = "HEARTBEAT"
    · rw [if_pos hct] at hp
      exact absurd hp (List.not_mem_nil p)
    · rw [if_neg hct] at hp
      split at hp
      · rename_i data
        split at hp
        · rename_i mcs hmcs
          obtain ⟨mcEntry, hmem, hpe⟩ := List.mem_filterMap.mp hp
          split at hpe
          · rename_i mid line hproc
            split at hpe
            · rw [Option.some.injEq] at hpe
              subst hpe
              exact lineIsolated_processed catalogues data mcEntry mid line hproc
            · exact absurd hpe (by simp)
          · exact absurd hpe (by simp)
        · exact absurd hp (List.not_mem_nil p)
      · exact absurd hp (List.not_mem_nil p)
  · rw [if_neg hop] at hp
    exact absurd hp (List.not_mem_nil p)

theorem getField_names_marketName (cat : MarketCatalogue)
    (md : List (String × Json)) :
    getField (enrichMarketDefNames cat md) "marketName" =
      some (.str cat.marketName) := by
  unfold enrichMarketDefNames
  have eEv := fun fs v => getField_setField_ne fs "eventName" "marketName" v (by decide)
  have eVe := fun fs v => getField_setField_ne fs "venue" "marketName" v (by decide)
  have eEt := fun fs v => getField_setField_ne fs "eventTypeName" "marketName" v (by decide)
  have eCo := fun fs v => getField_setField_ne fs "competitionName" "marketName" v (by decide)
  cases cat.event with
  | none =>
      cases cat.eventType <;> cases cat.competition <;>
        simp [eEt, eCo, getField_setField_self]
  | some ev =>
      by_cases hv : ev.venue = "" <;>
        cases cat.eventType <;> cases cat.competition <;>
          simp [hv, eEv, eVe, eEt, eCo, getField_setField_self]

theorem getField_names_eventName (cat : MarketCatalogue)
    (md : List (String × Json)) (ev : EventCat) (hev : cat.event = some ev) :
    getField (enrichMarketDefNames cat md) "eventName" =
      some (.str ev.name) := by
  unfold enrichMarketDefNames
  rw [hev]
  have eVe := fun fs v => getField_setField_ne fs "venue" "eventName" v (by decide)
  have eEt := fun fs v => getField_setField_ne fs "eventTypeName" "eventName" v (by decide)
  have eCo := fun fs v => getField_setField_ne fs "competitionName" "eventName" v (by decide)
  by_cases hv : ev.venue = "" <;>
    cases cat.eventType <;> cases cat.competition <;>
      simp [hv, eVe, eEt, eCo, getField_setField_self]

theorem getField_names_venue (cat : MarketCatalogue)
    (md : List (String × Json)) (ev : EventCat) (hev : cat.event = some ev)
    (hv : ev.venue ≠ "") :
    getField (enrichMarketDefNames cat md) "venue" =
      some (.str ev.venue) := by
  unfold enrichMarketDefNames
  rw [hev]
  have eEt := fun fs v => getField_setField_ne fs "eventTypeName" "venue" v (by decide)
  have eCo := fun fs v => getField_setField_ne fs "competitionName" "venue" v (by decide)
  cases cat.eventType <;> cases cat.competition <;>
    simp [hv, eEt, eCo, getField_setField_self]

theorem getField_names_venue_empty (cat : MarketCatalogue)
    (md : List (String × Json)) (ev : EventCat) (hev : cat.event = some ev)
    (hv : ev.venue = "") :
    getField (enrichMarketDefNames cat md) "venue" = getField md "venue" := by
  unfold enrichMarketDefNames
  rw [hev]
  have eMa := fun fs v => getField_setField_ne fs "marketName" "venue" v (by decide)
  have eEv := fun fs v => getField_setField_ne fs "eventName" "venue" v (by decide)
  have eEt := fun fs v => getField_setField_ne fs "eventTypeName" "venue" v (by decide)
  have eCo := fun fs v => getField_setField_ne fs "competitionName" "venue" v (by decide)
  cases cat.eventType <;> cases cat.competition <;>
    simp [hv, eMa, eEv, eEt, eCo]

theorem getField_names_eventTypeName (cat : MarketCatalogue)
    (md : List (String × Json)) (et : EventTypeCat)
    (het : cat.eventType = some et) :
    getField (enrichMarketDefNames cat md) "eventTypeName" =
      some (.str et.name) := by
  unfold enrichMarketDefNames
  rw [het]
  have eCo := fun fs v => getField_setField_ne fs "competitionName" "eventTypeName" v (by decide)
  cases cat.competition <;> simp [eCo, getField_setField_self]

theorem getField_names_competitionName (cat : MarketCatalogue)
    (md : List (String × Json)) (c : CompetitionCat)
    (hco : cat.competition = some c) :
    getField (enrichMarketDefNames cat md) "competitionName" =
      some (.str c.name) := by
  unfold enrichMarketDefNames
  rw [hco]
  exact getField_setField_self _ _ _

theorem getField_names_runners (cat : MarketCatalogue)
    (md : List (String × Json)) :
    getField (enrichMarketDefNames cat md) "runners" = getField md "runners" := by
  unfold enrichMarketDefNames
  have eMa := fun fs v => getField_setField_ne fs "marketName" "runners" v (by decide)
  have eEv := fun fs v => getField_setField_ne fs "eventName" "runners" v (by decide)
  have eVe := fun fs v => getField_setField_ne fs "venue" "runners" v (by decide)
  have eEt := fun fs v => getField_setField_ne fs "eventTypeName" "runners" v (by decide)
  have eCo := fun fs v => getField_setField_ne fs "competitionName" "runners" v (by decide)
  cases cat.event with
  | none =>
      cases cat.eventType <;> cases cat.competition <;>
        simp [eMa, eEt, eCo]
  | some ev =>
      by_cases hv : ev.venue = "" <;>
        cases cat.eventType <;> cases cat.competition <;>
          simp [hv, eMa, eEv, eVe, eEt, eCo]

theorem getField_enrichMarketDef_ne (cat : MarketCatalogue)
    (md : List (String × Json)) (key : String) (h : key ≠ "runners") :
    getField (enrichMarketDef cat md) key =
      getField (enrichMarketDefNames cat md) key := by
  unfold enrichMarketDef
  have eRu := fun fs v => getField_setField_ne fs "runners" key v (Ne.symm h)
  cases hr : getField (enrichMarketDefNames cat md) "runners" with
  | none => rfl
  | some v =>
      cases v with
      | arr rs => cases hrs : rs.isEmpty <;> simp [hrs, eRu]
      | null => rfl
      | bool b => rfl
      | num q => rfl
      | str s => rfl
      | obj fs2 => rfl

theorem getField_enrichMarketDef_runners (cat : MarketCatalogue)
    (md : List (String × Json)) (rs : List Json)
    (hr : getField md "runners" = some (.arr rs)) (hne : rs ≠ []) :
    getField (enrichMarketDef cat md) "runners" =
      some (.arr (rs.map (enrichRunner cat.runners))) := by
  unfold enrichMarketDef
  rw [getField_names_runners, hr]
  have hempty : rs.isEmpty = false := by
    cases rs with
    | nil => exact absurd rfl hne
    | cons a l => rfl
  simp [hempty, getField_setField_self]

theorem enrichRunner_found (runners : List RunnerCatalog)
    (rf : List (String × Json)) (q : Rat) (rc : RunnerCatalog)
    (hid : getField rf "id" = some (.num q))
    (hrc : runnerMapLookup runners (ratTruncToInt q) = some rc) :
    ∃ rf', enrichRunner runners (.obj rf) = .obj rf' ∧
      getField rf' "name" = some (.str rc.runnerName) ∧
      getField rf' "sortPriority" = some (.num (rc.sortPriority : Rat)) ∧
      (rc.handicap ≠ 0 → getField rf' "handicap" = some (.num rc.handicap)) ∧
      (rc.handicap = 0 → getField rf' "handicap" = getField rf "handicap") ∧
      (getField rf "adjustmentFactor" = none →
        getField rf' "adjustmentFactor" = some (.num 0)) ∧
      (∀ v, getField rf "adjustmentFactor" = some v →
        getField rf' "adjustmentFactor" = some v) := by
  have h1 := fun fs v => getField_setField_ne fs "sortPriority" "name" v (by decide)
  have h2 := fun fs v => getField_setField_ne fs "sortPriority" "handicap" v (by decide)
  have h3 := fun fs v => getField_setField_ne fs "sortPriority" "adjustmentFactor" v (by decide)
  have h4 := fun fs v => getField_setField_ne fs "handicap" "name" v (by decide)
  have h5 := fun fs v => getField_setField_ne fs "handicap" "adjustmentFactor" v (by decide)
  have h6 := fun fs v => getField_setField_ne fs "name" "handicap" v (by decide)
  have h7 := fun fs v => getField_setField_ne fs "name" "adjustmentFactor" v (by decide)
  have h8 := fun fs v => getField_setField_ne fs "adjustmentFactor" "handicap" v (by decide)
  simp only [enrichRunner, hid, hrc]
  cases haf : getField rf "adjustmentFactor" with
  | none =>
      by_cases hh : rc.handicap = 0 <;>
        refine ⟨_, rfl, ?_, ?_, ?_, ?_, ?_, ?_⟩ <;>
          simp [hh, haf, getField_setField_self, h1, h2, h3, h4, h5, h6, h7, h8]
  | some v0 =>
      by_cases hh : rc.handicap = 0 <;>
        refine ⟨_, rfl, ?_, ?_, ?_, ?_, ?_, ?_⟩ <;>
          simp [hh, haf, getField_setField_self, h1, h2, h3, h4, h5, h6, h7, h8]

/-- Claim C9. Given a cached catalogue entry for a market, enrichment
rewrites the payload's `mc[0].marketDefinition` to `enrichMarketDef`
(leaving everything else of the payload unchanged), and the rewritten
definition: carries `marketName`; carries `eventName`, and `venue`
exactly when the catalogue event venue is non-empty (an empty venue
leaves the field as it was), when the catalogue has an event; carries
`eventTypeName` when it has an event type and `competitionName` when it
has a competition; maps `enrichRunner` over a non-empty `runners`
array; each runner found in the catalogue runner map by its numeric id
gets `name` and `sortPriority`, `handicap` only when non-zero, and
`adjustmentFactor = 0.0` only when not already present; and when the
enrichment step fails the recorder emits the original non-enriched
payload instead of dropping the line. -/
theorem C9_enrichment (cat : MarketCatalogue)
    (data market md : List (String × Json)) (mcRest : List Json)
    (hmc : getField data "mc" = some (.arr (.obj market :: mcRest)))
    (hmd : getField market "marketDefinition" = some (.obj md)) :
    (enrichWithCatalogue cat (.obj data) =
      .obj (setField data "mc" (.arr (.obj (setField market "marketDefinition"
        (.obj (enrichMarketDef cat md))) :: mcRest)))) ∧
    getField (enrichMarketDef cat md) "marketName" =
      some (.str cat.marketName) ∧
    (∀ ev, cat.event = some ev →
      getField (enrichMarketDef cat md) "eventName" = some (.str ev.name) ∧
      (ev.venue ≠ "" →
        getField (enrichMarketDef cat md) "venue" = some (.str ev.venue)) ∧
      (ev.venue = "" →
        getField (enrichMarketDef cat md) "venue" = getField md "venue")) ∧
    (∀ et, cat.eventType = some et →
      getField (enrichMarketDef cat md) "eventTypeName" =
        some (.str et.name)) ∧
    (∀ c, cat.competition = some c →
      getField (enrichMarketDef cat md) "competitionName" =
        some (.str c.name)) ∧
    (∀ rs, getField md "runners" = some (.arr rs) → rs ≠ [] →
      getField (enrichMarketDef cat md) "runners" =
        some (.arr (rs.map (enrichRunner cat.runners)))) ∧
    (∀ rf q rc, getField rf "id" = some (.num q) →
      runnerMapLookup cat.runners (ratTruncToInt q) = some rc →
      ∃ rf', enrichRunner cat.runners (.obj rf) = .obj rf' ∧
        getField rf' "name" = some (.str rc.runnerName) ∧
        getField rf' "sortPriority" = some (.num (rc.sortPriority : Rat)) ∧
        (rc.handicap ≠ 0 → getField rf' "handicap" = some (.num rc.handicap)) ∧
        (rc.handicap = 0 → getField rf' "handicap" = getField rf "handicap") ∧
        (getField rf "adjustmentFactor" = none →
          getField rf' "adjustmentFactor" = some (.num 0)) ∧
        (∀ v, getField rf "adjustmentFactor" = some v →
          getField rf' "adjustmentFactor" = some v)) ∧
    (∀ e filtered, emittedPayload (.error e) filtered = filtered) := by
  refine ⟨by simp [enrichWithCatalogue, hmc, hmd], ?_, ?_, ?_, ?_, ?_, ?_, ?_⟩
  · rw [getField_enrichMarketDef_ne cat md "marketName" (by decide)]
    exact getField_names_marketName cat md
  · intro ev hev
    refine ⟨?_, ?_, ?_⟩
    · rw [getField_enrichMarketDef_ne cat md "eventName" (by decide)]
      exact getField_names_eventName cat md ev hev
    · intro hv
      rw [getField_enrichMarketDef_ne cat md "venue" (by decide)]
      exact getField_names_venue cat md ev hev hv
    · intro hv
      rw [getField_enrichMarketDef_ne cat md "venue" (by decide)]
      exact getField_names_venue_empty cat md ev hev hv
  · intro et het
    rw [getField_enrichMarketDef_ne cat md "eventTypeName" (by decide)]
    exact getField_names_eventTypeName cat md et het
  · intro c hco
    rw [getField_enrichMarketDef_ne cat md "competitionName" (by decide)]
    exact getField_names_competitionName cat md c hco
  · intro rs hrs hne
    exact getField_enrichMarketDef_runners cat md rs hrs hne
  · intro rf q rc hid hrc
    exact enrichRunner_found cat.runners rf q rc hid hrc
  · intro e filtered
    rfl

/-- The catalogue of the spec's S6 scenario, as concrete test input. -/
def catalogueSample : MarketCatalogue :=
  { marketName := "Win"
  , event := some { name := "Healesville R1", venue := "Healesville" }
  , eventType := some { name := "Greyhound Racing" }
  , competition := none
  , runners := [{ selectionID := 1, runnerName := "Fantastic Nadia",
                  handicap := 0, sortPriority := 1 }] }

/-- The S6 market definition: an `OPEN` status and one active runner. -/
def marketDefSample : List (String × Json) :=
  [("status", .str "OPEN"),
   ("runners", .arr [.obj [("id", .num 1), ("status", .str "ACTIVE")]])]

/-- The S6 market change carrying `marketDefSample`. -/
def marketChangeSample : List (String × Json) :=
  [("id", .str "1.23"), ("marketDefinition", .obj marketDefSample)]

/-- The S6 single-market frame fields carrying `marketChangeSample`. -/
def dataSample : List (String × Json) :=
  [("op", .str "mcm"), ("pt", .num 123), ("clk", .str "1000"),
   ("mc", .arr [.obj marketChangeSample])]

/-- Witness for `C9_enrichment` at the spec's S6 scenario. -/
theorem C9_enrichment_witness :
    getField dataSample "mc" =
      some (.arr (.obj marketChangeSample :: ([] : List Json))) ∧
    getField marketChangeSample "marketDefinition" =
      some (.obj marketDefSample) ∧
    getField (enrichMarketDef catalogueSample marketDefSample) "marketName" =
      some (.str "Win") ∧
    getField (enrichMarketDef catalogueSample marketDefSample) "runners" =
      some (.arr ([Json.obj [("id", Json.num 1), ("status", Json.str "ACTIVE")]].map
        (enrichRunner catalogueSample.runners))) :=
  ⟨rfl, rfl,
    (C9_enrichment catalogueSample dataSample marketChangeSample
      marketDefSample [] rfl rfl).2.1,
    (C9_enrichment catalogueSample dataSample marketChangeSample
      marketDefSample [] rfl rfl).2.2.2.2.2.1
      [Json.obj [("id", Json.num 1), ("status", Json.str "ACTIVE")]] rfl
      (List.cons_ne_nil _ _)⟩
